import Mathlib

/-!
Verification of the MacRunner job-orchestration backend.

Shallow embedding of the relevant parts of the source:
  backend/app/manager.py    (validate_command_safety, ProcessManager.run_command,
                             ProcessManager.stop_job, ProcessManager.get_existing_logs,
                             ProcessManager.ensure_environment_exists, PTYSession,
                             terminal-session management, git_pull)
  backend/app/websockets.py (stream_logs)
  backend/app/scheduler.py  (execute_scheduled_task, cron dispatch)
  backend/app/main.py       (stop endpoint, run-task-now endpoint)

External effects (the OS, the regex engine, the database clock, the file system)
are passed in explicitly as oracle parameters so that every definition is an
executable function of its inputs.
-/

/-- Job status enum from backend/app/models.py (JobStatus). -/
inductive JobStatus
  | pending
  | running
  | completed
  | failed
  | stopped
deriving DecidableEq, Repr

/-- The string value of each status, as stored in the database
(models.py uses lowercase string values). -/
def JobStatus.value : JobStatus → String
  | .pending => "pending"
  | .running => "running"
  | .completed => "completed"
  | .failed => "failed"
  | .stopped => "stopped"

/-- A status is terminal when it is one of COMPLETED, FAILED, STOPPED; the code
checks membership in that three-element list (websockets.py lines 148, 162, 180). -/
def JobStatus.isTerminal : JobStatus → Bool
  | .completed => true
  | .failed => true
  | .stopped => true
  | _ => false

/-- Environment type enum from backend/app/models.py (EnvironmentType). -/
inductive EnvironmentType
  | venv
  | conda
  | docker
deriving DecidableEq, Repr

/-- Dictionary lookup (Python dict.get) for integer-keyed maps modelled as
association lists. -/
def lookupKey {β : Type} (k : Nat) : List (Nat × β) → Option β
  | [] => none
  | (k', v) :: xs => if k' = k then some v else lookupKey k xs

/-- Dictionary removal (Python dict.pop(k, None)): removes the entry with the
given key. Python dict keys are unique, so filtering all matches is faithful. -/
def eraseKey {β : Type} (k : Nat) (xs : List (Nat × β)) : List (Nat × β) :=
  xs.filter (fun p => p.1 ≠ k)

/-- Dictionary update of an existing key (assignment to a row already present). -/
def updateKey {β : Type} (k : Nat) (v : β) : List (Nat × β) → List (Nat × β)
  | [] => []
  | (k', v') :: xs => if k' = k then (k', v) :: xs else (k', v') :: updateKey k v xs

theorem lookupKey_eraseKey {β : Type} (k : Nat) (xs : List (Nat × β)) :
    lookupKey k (eraseKey k xs) = none := by
  induction xs with
  | nil => rfl
  | cons p xs ih =>
    by_cases h : p.1 = k
    · simpa [eraseKey, h, List.filter] using ih
    · simpa [eraseKey, h, List.filter, lookupKey] using ih

theorem lookupKey_updateKey_self {β : Type} (k : Nat) (v : β) (xs : List (Nat × β))
    (h : lookupKey k xs ≠ none) : lookupKey k (updateKey k v xs) = some v := by
  induction xs with
  | nil => simp [lookupKey] at h
  | cons p xs ih =>
    by_cases hk : p.1 = k
    · simp [updateKey, hk, lookupKey]
    · simp [updateKey, hk, lookupKey] at h ⊢
      exact ih h

/-! ## Command safety validation (manager.py lines 30-68)

The deny-list DANGEROUS_COMMAND_PATTERNS and validate_command_safety.
Pattern matching is delegated to Python's re.search (an external library);
it is modelled as an oracle parameter reSearch taking a pattern and the
command and returning whether the pattern matches. -/

/-- The deny-list from manager.py lines 30-47, verbatim: pairs of
(regex pattern, human-readable description). -/
def DANGEROUS_COMMAND_PATTERNS : List (String × String) :=
  [ ("\\brm\\s+.*-[rR].*\\s+(/|~|\\$HOME)", "Recursive deletion of root or home directory"),
    ("\\brm\\s+-[rR]f\\s+/", "Force recursive deletion from root"),
    ("\\brm\\s+-rf\\s+\\*", "Force recursive deletion with wildcard"),
    ("\\bmkfs\\.", "Filesystem format command"),
    ("\\bdd\\s+.*of=/dev/", "Direct disk write"),
    ("\\bchmod\\s+-R\\s+777\\s+/", "Recursive permission change on root"),
    ("\\bchown\\s+-R\\s+.*\\s+/", "Recursive ownership change on root"),
    (":\\(\\)\\\x7b\\s*:\\|:&\\s*\\\x7d;:", "Fork bomb detected"),
    ("(curl|wget).*\\|\\s*(ba)?sh", "Remote script execution"),
    ("\\bsudo\\s+rm\\s+-rf\\s+/", "Sudo recursive deletion from root") ]

/-- manager.py lines 50-68: scan the deny-list in order; on the first pattern
that matches, return (False, message); otherwise (True, ""). -/
def validate_command_safety (reSearch : String → String → Bool) (command : String) :
    Bool × String :=
  match DANGEROUS_COMMAND_PATTERNS.find? (fun pd => reSearch pd.1 command) with
  | some pd => (false, "Potentially dangerous command blocked: " ++ pd.2)
  | none => (true, "")

/-- The blocked-command log message built in run_command, manager.py
lines 1181-1183 (command truncated to 100 characters with an ellipsis). -/
def blockedMessage (safetyError command : String) : String :=
  "❌ COMMAND BLOCKED: " ++ safetyError ++ "\n"
    ++ "   Command: " ++ command.take 100
    ++ (if 100 < command.length then "..." else "") ++ "\n"
    ++ "   If you need to run this command, use the terminal instead.\n"

/-- The state touched by the safety gate at the top of run_command:
the job row, the job's log file, the per-job live subscriber queues
(each queue is a list of already-delivered items, none being the
end-of-stream sentinel), the running-process handle map and the number
of free concurrency slots. -/
structure JobExecState where
  status : JobStatus
  endTimeSet : Bool
  logFile : String
  logQueues : List (List (Option String))
  runningProcs : List (Nat × Nat)
  semAvailable : Nat
deriving DecidableEq, Repr

/-- manager.py lines 1177-1193: the prefix of run_command up to (and
including) the early return taken when validate_command_safety rejects the
command. Returns the updated state and whether execution proceeds past the
gate (False means run_command returned at line 1193 without spawning,
registering a handle, or touching the semaphore). -/
def run_command_safety_gate (reSearch : String → String → Bool) (command : String)
    (st : JobExecState) : JobExecState × Bool :=
  let v := validate_command_safety reSearch command
  if v.1 then (st, true)
  else
    let msg := blockedMessage v.2 command
    ({ st with
        logFile := msg,
        logQueues := st.logQueues.map (fun q => q ++ [some msg, none]),
        status := .failed,
        endTimeSet := true }, false)

/-! ## stop_job (manager.py lines 1366-1434)

OS interactions are modelled by two oracle values: the outcome of the
existence probe os.kill(pid, 0), and the behaviour of the
SIGTERM/SIGKILL sequence inside the try block. -/

/-- Outcome of the os.kill(pid, 0) process-existence probe
(manager.py lines 1392-1399). -/
inductive KillCheck
  | procGone
  | permDenied
  | okSignal
deriving DecidableEq, Repr

/-- Behaviour of the graceful-termination sequence in the try block
(manager.py lines 1401-1431): graceful SIGTERM exit; SIGKILL after the
timeout (with or without the process surviving it); the process vanishing
mid-sequence (ProcessLookupError); or any other exception. -/
inductive TermBehavior
  | graceful
  | killAfterTimeout
  | stillAliveAfterKill
  | goneDuring
  | unexpectedError
deriving DecidableEq, Repr

/-- manager.py lines 1366-1434. Returns (result, running-process map after
the call). The finally block removes the handle on every path through the
try block; the early return at line 1387 happens before the try block, when
no handle is present. The generic except branch (lines 1429-1431) returns
False even though a handle existed. -/
def stop_job (procs : List (Nat × Nat)) (jobId : Nat)
    (check : KillCheck) (term : TermBehavior) : Bool × List (Nat × Nat) :=
  match lookupKey jobId procs with
  | none => (false, procs)
  | some _pid =>
    match check with
    | .procGone => (true, eraseKey jobId procs)
    | _ =>
      match term with
      | .unexpectedError => (false, eraseKey jobId procs)
      | _ => (true, eraseKey jobId procs)

/-! ## Log stream handler (websockets.py lines 105-211)

The handler reads the job status twice from the database: once before the
replay (line 135) and once again after subscribing to the live queue
(lines 160-169). Both reads are inputs of the model. The outcome records
the messages sent before the wait loop, whether the handler subscribed and
unsubscribed, and whether it entered the wait loop at line 172. -/

/-- A message of the log-stream protocol. -/
inductive WsMsg
  | log (data : String)
  | endMsg (message : String)
  | errorMsg (message : String)
deriving DecidableEq, Repr

/-- Observable outcome of stream_logs up to the wait loop. -/
structure StreamOutcome where
  msgs : List WsMsg
  subscribed : Bool
  unsubscribed : Bool
  enteredLoop : Bool
deriving DecidableEq, Repr

/-- websockets.py lines 105-199 (up to the wait loop). -/
def stream_logs (jobId : Nat) (jobExists : Bool) (statusAtLookup : JobStatus)
    (replayLines : List String) (statusAfterSubscribe : JobStatus) : StreamOutcome :=
  if jobExists = false then
    ⟨[WsMsg.errorMsg ("Job " ++ toString jobId ++ " not found")], false, false, false⟩
  else
    let replayMsgs := replayLines.map WsMsg.log
    if statusAtLookup.isTerminal then
      ⟨replayMsgs ++ [WsMsg.endMsg ("Job finished with status: " ++ statusAtLookup.value)],
       false, false, false⟩
    else if statusAfterSubscribe.isTerminal then
      ⟨replayMsgs ++ [WsMsg.endMsg ("Job finished with status: " ++ statusAfterSubscribe.value)],
       true, true, false⟩
    else
      ⟨replayMsgs, true, false, true⟩

/-! ## Environment provisioner (manager.py lines 970-1030)

File-system and subprocess results are oracle fields of EnvWorld. -/

/-- File-system and toolchain facts consulted by ensure_environment_exists. -/
structure EnvWorld where
  envDirExists : Bool
  pythonExists : Bool
  dockerOk : Bool
  condaCreateOk : Bool
  venvCreateOk : Bool
deriving DecidableEq, Repr

/-- Side effects performed by ensure_environment_exists. -/
inductive EnvAct
  | dockerVerify
  | rmtree (path : String)
  | createConda
  | createVenv
deriving DecidableEq, Repr

/-- manager.py lines 185-199: conda environments live in workspace/env,
venv environments in workspace/venv. -/
def get_environment_path (workspace : String) (envType : EnvironmentType) : String :=
  if envType = .conda then workspace ++ "/env" else workspace ++ "/venv"

/-- manager.py lines 970-1030: returns the result together with the list of
side effects performed (docker verification, rmtree of a corrupt directory,
environment creation). -/
def ensure_environment_exists (workspacePath : Option String)
    (envType : EnvironmentType) (w : EnvWorld) : Bool × List EnvAct :=
  match workspacePath with
  | none => (false, [])
  | some ws =>
    if envType = .docker then (w.dockerOk, [.dockerVerify])
    else
      let envPath := get_environment_path ws envType
      let createRes : Bool := if envType = .conda then w.condaCreateOk else w.venvCreateOk
      let createAct : EnvAct := if envType = .conda then .createConda else .createVenv
      if w.envDirExists ∧ w.pythonExists then (true, [])
      else (createRes, (if w.envDirExists then [.rmtree envPath] else []) ++ [createAct])

/-! ## Terminal session counter (manager.py lines 2125-2185) -/

/-- The session-related fields of ProcessManager: the monotone counter and
the map of open sessions (only the key set matters here). -/
structure TerminalMgr where
  counter : Nat
  sessions : List Nat
deriving DecidableEq, Repr

/-- manager.py lines 2125-2142: increment the counter first; if the PTY
starts, register and return the id; if the start fails a RuntimeError is
raised (modelled as returning none) but the counter stays incremented. -/
def create_terminal_session (startOk : Bool) (m : TerminalMgr) : TerminalMgr × Option Nat :=
  let sid := m.counter + 1
  if startOk then ({ counter := sid, sessions := sid :: m.sessions }, some sid)
  else ({ m with counter := sid }, none)

/-- manager.py lines 2177-2185: pop the session and close it; the counter is
not touched. -/
def close_terminal_session (sid : Nat) (m : TerminalMgr) : TerminalMgr :=
  { m with sessions := m.sessions.erase sid }

/-- One API call against the session registry. -/
inductive TermOp
  | createSession (startOk : Bool)
  | closeSession (sid : Nat)
deriving DecidableEq, Repr

/-- Apply one call, returning the new registry and the id returned to the
caller when the call was a successful create. -/
def applyTermOp (m : TerminalMgr) : TermOp → TerminalMgr × Option Nat
  | .createSession ok => create_terminal_session ok m
  | .closeSession sid => (close_terminal_session sid m, none)

/-- Run a sequence of calls, collecting the ids returned by successful
creates in order. -/
def runTermOps (m : TerminalMgr) : List TermOp → TerminalMgr × List Nat
  | [] => (m, [])
  | op :: ops =>
    let r := applyTermOp m op
    let rest := runTermOps r.1 ops
    (rest.1, r.2.toList ++ rest.2)

/-! ## PTYSession (manager.py lines 219-466)

The session state mirrors PTYSession.__init__ plus the reader-task handle.
OS calls are recorded as a trace of actions. -/

/-- In-memory state of a PTYSession. -/
structure PTYState where
  sessionId : Nat
  masterFd : Option Nat
  slaveFd : Option Nat
  pid : Option Nat
  closed : Bool
  hasReaderTask : Bool
  lastActivity : Nat
deriving DecidableEq, Repr

/-- OS-level actions a PTYSession can perform. -/
inductive PtyAct
  | closeFd (fd : Nat)
  | sigterm (pid : Nat)
  | waitChild (pid : Nat)
  | cancelReader
  | writeFd (fd : Nat)
  | readFd (fd : Nat)
deriving DecidableEq, Repr

/-- manager.py lines 407-441 (PTYSession.close): set the closed flag, cancel
the reader task if any, close master and slave descriptors if still open,
SIGTERM and reap the child if still recorded; every handle field is cleared
so a second call finds nothing to do. -/
def PTYSession.close (s : PTYState) : PTYState × List PtyAct :=
  let a1 : List PtyAct := if s.hasReaderTask then [.cancelReader] else []
  let a2 : List PtyAct := match s.masterFd with
    | some m => [.closeFd m]
    | none => []
  let a3 : List PtyAct := match s.slaveFd with
    | some fd => [.closeFd fd]
    | none => []
  let a4 : List PtyAct := match s.pid with
    | some p => [.sigterm p, .waitChild p]
    | none => []
  ({ s with closed := true, hasReaderTask := false,
            masterFd := none, slaveFd := none, pid := none },
   a1 ++ a2 ++ a3 ++ a4)

/-- manager.py lines 344-364 (PTYSession.write): refuse when the master
descriptor is gone or the session is closed; otherwise write to the master
fd, and on success update the activity timestamp. writeOk models whether
os.write raises. -/
def PTYSession.write (writeOk : Bool) (now : Nat) (s : PTYState) :
    Bool × PTYState × List PtyAct :=
  match s.masterFd with
  | none => (false, s, [])
  | some m =>
    if s.closed then (false, s, [])
    else if writeOk then (true, { s with lastActivity := now }, [.writeFd m])
    else (false, s, [.writeFd m])

/-- Result of the non-blocking os.read on the master fd. -/
inductive ReadRes
  | dataRes (bytes : List Nat)
  | wouldBlock
  | eio
deriving DecidableEq, Repr

/-- manager.py lines 366-386 (PTYSession.read): None when the master
descriptor is gone or the session is closed; otherwise read the master fd:
data, None on EAGAIN, and None with the closed flag set on EIO (child
terminated). -/
def PTYSession.read (res : ReadRes) (s : PTYState) :
    Option (List Nat) × PTYState × List PtyAct :=
  match s.masterFd with
  | none => (none, s, [])
  | some m =>
    if s.closed then (none, s, [])
    else
      match res with
      | .dataRes bs => (some bs, s, [.readFd m])
      | .wouldBlock => (none, s, [.readFd m])
      | .eio => (none, { s with closed := true }, [.readFd m])

/-! ## Scheduler (scheduler.py lines 93-161, main.py lines 2549-2566)

The database rows and the APScheduler trigger registry are explicit state;
cron next-occurrence computation is an input of the cron-fire transition. -/

/-- A ScheduledTask database row (the fields execute_scheduled_task touches). -/
structure TaskRec where
  enabled : Bool
  projectId : Nat
  command : String
  lastRun : Option Nat
  nextRun : Option Nat
  lastJobId : Option Nat
deriving DecidableEq, Repr

/-- A Job row created by the scheduler. -/
structure SchedJobRec where
  id : Nat
  projectId : Nat
  status : JobStatus
  command : String
deriving DecidableEq, Repr

/-- Scheduler-facing system state: ScheduledTask rows, the existing project
ids, the APScheduler trigger registry (task id to next_run_time), the Job
rows created so far, the job ids handed to the executor's background task,
the next fresh job id and the current clock. -/
structure SchedState where
  tasks : List (Nat × TaskRec)
  projects : List Nat
  trigger : List (Nat × Nat)
  jobs : List SchedJobRec
  dispatched : List Nat
  nextJobId : Nat
  now : Nat
deriving DecidableEq, Repr

/-- scheduler.py lines 93-161 (execute_scheduled_task): look up the task,
bail out when missing or disabled, bail out when the project is missing;
otherwise create a PENDING Job, set last_run to now and last_job_id, copy
the APScheduler entry's next_run_time into next_run when the entry exists,
and hand the job id to the background runner. -/
def execute_scheduled_task (s : SchedState) (taskId : Nat) : SchedState :=
  match lookupKey taskId s.tasks with
  | none => s
  | some t =>
    if t.enabled = false then s
    else if t.projectId ∉ s.projects then s
    else
      let jid := s.nextJobId
      let job : SchedJobRec := ⟨jid, t.projectId, .pending, t.command⟩
      let nr : Option Nat :=
        match lookupKey taskId s.trigger with
        | some nt => some nt
        | none => t.nextRun
      let t' : TaskRec :=
        { t with lastRun := some s.now, lastJobId := some jid, nextRun := nr }
      { s with tasks := updateKey taskId t' s.tasks,
               jobs := s.jobs ++ [job],
               dispatched := s.dispatched ++ [jid],
               nextJobId := jid + 1 }

/-- main.py lines 2549-2566 (run_scheduled_task_now endpoint): 404 when the
task row is missing, otherwise dispatch through execute_scheduled_task —
the very function APScheduler invokes on a cron fire. -/
def run_scheduled_task_now (s : SchedState) (taskId : Nat) : SchedState :=
  match lookupKey taskId s.tasks with
  | none => s
  | some _ => execute_scheduled_task s taskId

/-- A cron fire: APScheduler first advances the trigger entry's
next_run_time to the next occurrence (an input here), then invokes
execute_scheduled_task (scheduler.py lines 224-228). -/
def cron_fire (s : SchedState) (taskId : Nat) (newNextRunTime : Nat) : SchedState :=
  execute_scheduled_task
    { s with trigger := updateKey taskId newNextRunTime s.trigger } taskId

/-- The database/scheduler synchronisation invariant: for every dispatchable
task (enabled, project present) whose trigger entry is registered, the
stored next_run equals the trigger entry's next_run_time. It is established
by add_scheduled_job (scheduler.py lines 233-239) and re-established by
every fire. -/
def SchedSyncInv (s : SchedState) : Prop :=
  ∀ tid t nt, lookupKey tid s.tasks = some t → t.enabled = true →
    t.projectId ∈ s.projects → lookupKey tid s.trigger = some nt →
    t.nextRun = some nt

/-- The stored next_run of a task, when the task row exists. -/
def nextRunOf (s : SchedState) (taskId : Nat) : Option (Option Nat) :=
  (lookupKey taskId s.tasks).map TaskRec.nextRun

/-! ## Log replay with tail truncation (manager.py lines 1458-1518)

File content is modelled as a list of characters (the logs are written and
read as text). splitNL is Python's str.split("\n"): it always returns at
least one (possibly empty) segment. -/

/-- Python str.split("\n") on a character list. -/
def splitNL : List Char → List (List Char)
  | [] => [[]]
  | c :: cs =>
    if c = '\n' then [] :: splitNL cs
    else
      match splitNL cs with
      | [] => [[c]]
      | p :: ps => (c :: p) :: ps

/-- Drop everything up to and including the first newline. -/
def dropThroughFirstNL : List Char → List Char
  | [] => []
  | c :: cs => if c = '\n' then cs else dropThroughFirstNL cs

/-- manager.py lines 1504-1507: content.find("\n") followed by the slice
content[first_newline + 1:] when a newline was found, the content unchanged
otherwise. -/
def pySliceAfterFirstNL (s : List Char) : List Char :=
  if '\n' ∈ s then dropThroughFirstNL s else s

/-- Python text-file line iteration (for line in f): every line keeps its
newline terminator; a trailing fragment without a newline is yielded as is. -/
def fileLines (s : List Char) : List (List Char) :=
  if s = [] then []
  else
    match (splitNL s).reverse with
    | [] => []
    | lastSeg :: revInit =>
      (revInit.reverse.map (fun p => p ++ ['\n']))
        ++ (if lastSeg = [] then [] else [lastSeg])

/-- Python list slice xs[-k:]: the last k elements, except that k = 0 gives
the whole list (mirrors lines[-max_lines:] at manager.py line 1513). -/
def pyTailSlice {α : Type} (k : Nat) (l : List α) : List α :=
  if k = 0 then l else l.drop (l.length - k)

/-- The truncation notice of manager.py line 1494. -/
def truncationNotice (maxBytes fileSize : Nat) : List Char :=
  ("[LOG TRUNCATED - Showing last " ++ toString (maxBytes / 1024) ++ "KB of "
    ++ toString (fileSize / 1024) ++ "KB]\n").toList

/-- The separator of manager.py line 1495: fifty equals signs. -/
def separatorLine : List Char := List.replicate 50 '=' ++ ['\n']

/-- The omitted-lines indication of manager.py line 1512. -/
def omittedNotice (n : Nat) : List Char :=
  ("[... " ++ toString n ++ " more lines above ...]\n").toList

/-- The last segment of the content after splitting on newlines: the true
last line of the file (without terminator). -/
def lastSegment (s : List Char) : List Char := ((splitNL s).getLast?).getD []

/-- manager.py lines 1458-1518 (get_existing_logs) for an existing log file
with the given content: small files are replayed line by line in full; for
larger files, seek maxBytes from the end, drop the partial first line, split
into segments, cap at maxLines segments (emitting the omitted count), and
yield each nonempty segment with a newline appended. -/
def get_existing_logs (content : List Char) (maxBytes maxLines : Nat) :
    List (List Char) :=
  if content.length ≤ maxBytes then fileLines content
  else
    let tailBytes := content.drop (content.length - maxBytes)
    let lines := splitNL (pySliceAfterFirstNL tailBytes)
    let pre : List (List Char) :=
      if maxLines < lines.length then [omittedNotice (lines.length - maxLines)] else []
    let lines2 := if maxLines < lines.length then pyTailSlice maxLines lines else lines
    truncationNotice maxBytes content.length :: separatorLine ::
      (pre ++ (lines2.filter (fun l => l ≠ [])).map (fun l => l ++ ['\n']))

/-! ## The job execution machine (manager.py run_command lines 1147-1364,
git_pull lines 1520-1626, stop endpoint main.py lines 684-728)

A small-step interleaving semantics. Each submitted job is driven by one
coroutine (task); its phase records the program point between awaits:

  validating  — before the safety/environment checks (job PENDING);
  waitingSlot — suspended on the semaphore (run_command line 1235);
  spawning    — slot acquired, status committed RUNNING (line 1252),
                subprocess creation awaited (line 1262);
  streaming   — pid registered in running_processes (line 1273), streams
                being drained until the process exits;
  donePhase   — final status committed, handle popped, slot released.

git_pull commits RUNNING and spawns without ever touching the semaphore
(lines 1536-1564). The stop endpoint runs when the job is RUNNING and a
handle exists: it kills the process group, pops the handle and commits
STOPPED (main.py lines 698-708); the executor coroutine, still suspended on
process.wait(), later resumes and commits its own final status — FAILED,
because the killed process exits nonzero (run_command line 1324). -/

/-- What kind of executor coroutine drives a job, with the oracle inputs
that decide its branches: whether the deny-list matches, whether the
environment check succeeds, and the exit code the process would return if
not killed. -/
inductive TaskKind
  | runCmd (blocked : Bool) (envOk : Bool) (exitCode : Int)
  | gitPull (exitCode : Int)
deriving DecidableEq, Repr

/-- Program point of an executor coroutine. -/
inductive TaskPhase
  | validating
  | waitingSlot
  | spawning
  | streaming
  | donePhase
deriving DecidableEq, Repr

/-- One job together with the coroutine executing it. status is the job's
database row; killed records that the stop endpoint signalled the process. -/
structure ExecTask where
  jobId : Nat
  kind : TaskKind
  phase : TaskPhase
  status : JobStatus
  killed : Bool
deriving DecidableEq, Repr

/-- Whole-system state: the configured limit (max_concurrent_jobs), the
semaphore's free-slot count, the running_processes key set, and the jobs. -/
structure MState where
  maxJobs : Nat
  sem : Nat
  procs : List Nat
  tasks : List ExecTask
deriving DecidableEq, Repr

/-- Phases during which a run_command coroutine holds a concurrency slot
(inside the async-with at manager.py line 1235). -/
def isHolderPhase : TaskPhase → Bool
  | .spawning => true
  | .streaming => true
  | _ => false

/-- Number of coroutines currently holding a slot. -/
def holders (s : MState) : Nat :=
  s.tasks.countP (fun t => isHolderPhase t.phase)

/-- Number of jobs whose database status is RUNNING. -/
def runningCount (s : MState) : Nat :=
  s.tasks.countP (fun t => t.status == JobStatus.running)

/-- One interleaving step of the system. -/
inductive Step : MState → MState → Prop
  | validateBlocked (mj sem : Nat) (procs : List Nat) (l r : List ExecTask)
      (t : ExecTask) (e : Bool) (c : Int)
      (hk : t.kind = .runCmd true e c) (hp : t.phase = .validating) :
      Step ⟨mj, sem, procs, l ++ t :: r⟩
           ⟨mj, sem, procs, l ++ { t with phase := .donePhase, status := .failed } :: r⟩
  | validateEnvFail (mj sem : Nat) (procs : List Nat) (l r : List ExecTask)
      (t : ExecTask) (c : Int)
      (hk : t.kind = .runCmd false false c) (hp : t.phase = .validating) :
      Step ⟨mj, sem, procs, l ++ t :: r⟩
           ⟨mj, sem, procs, l ++ { t with phase := .donePhase, status := .failed } :: r⟩
  | validateOk (mj sem : Nat) (procs : List Nat) (l r : List ExecTask)
      (t : ExecTask) (c : Int)
      (hk : t.kind = .runCmd false true c) (hp : t.phase = .validating) :
      Step ⟨mj, sem, procs, l ++ t :: r⟩
           ⟨mj, sem, procs, l ++ { t with phase := .waitingSlot } :: r⟩
  | acquire (mj n : Nat) (procs : List Nat) (l r : List ExecTask)
      (t : ExecTask) (c : Int)
      (hk : t.kind = .runCmd false true c) (hp : t.phase = .waitingSlot) :
      Step ⟨mj, n + 1, procs, l ++ t :: r⟩
           ⟨mj, n, procs, l ++ { t with phase := .spawning, status := .running } :: r⟩
  | spawn (mj sem : Nat) (procs : List Nat) (l r : List ExecTask)
      (t : ExecTask) (c : Int)
      (hk : t.kind = .runCmd false true c) (hp : t.phase = .spawning) :
      Step ⟨mj, sem, procs, l ++ t :: r⟩
           ⟨mj, sem, t.jobId :: procs, l ++ { t with phase := .streaming } :: r⟩
  | finishRun (mj sem : Nat) (procs : List Nat) (l r : List ExecTask)
      (t : ExecTask) (c : Int)
      (hk : t.kind = .runCmd false true c) (hp : t.phase = .streaming) :
      Step ⟨mj, sem, procs, l ++ t :: r⟩
           ⟨mj, sem + 1, procs.erase t.jobId,
            l ++ { t with phase := .donePhase,
                          status := if t.killed = false ∧ c = 0
                                    then JobStatus.completed else JobStatus.failed } :: r⟩
  | gitStart (mj sem : Nat) (procs : List Nat) (l r : List ExecTask)
      (t : ExecTask) (c : Int)
      (hk : t.kind = .gitPull c) (hp : t.phase = .validating) :
      Step ⟨mj, sem, procs, l ++ t :: r⟩
           ⟨mj, sem, t.jobId :: procs,
            l ++ { t with phase := .streaming, status := .running } :: r⟩
  | gitFinish (mj sem : Nat) (procs : List Nat) (l r : List ExecTask)
      (t : ExecTask) (c : Int)
      (hk : t.kind = .gitPull c) (hp : t.phase = .streaming) :
      Step ⟨mj, sem, procs, l ++ t :: r⟩
           ⟨mj, sem, procs.erase t.jobId,
            l ++ { t with phase := .donePhase,
                          status := if t.killed = false ∧ c = 0
                                    then JobStatus.completed else JobStatus.failed } :: r⟩
  | stopJob (mj sem : Nat) (procs : List Nat) (l r : List ExecTask)
      (t : ExecTask)
      (hs : t.status = .running) (hin : t.jobId ∈ procs) :
      Step ⟨mj, sem, procs, l ++ t :: r⟩
           ⟨mj, sem, procs.erase t.jobId,
            l ++ { t with status := .stopped, killed := true } :: r⟩

/-- Reachability: zero or more interleaving steps. -/
def ReachableExec : MState → MState → Prop := Relation.ReflTransGen Step

/-- The database status of a job in a machine state. -/
def jobStatusIn (s : MState) (jobId : Nat) : Option JobStatus :=
  (s.tasks.find? (fun t => t.jobId == jobId)).map ExecTask.status

/-! ## Claim C1: deny-listed commands fail without spawning -/

/-- Claim C1: for every command matching a deny-list pattern, the safety gate
at the top of run_command marks the job Failed, writes the blocked-command
message followed by the end-of-stream sentinel to every subscriber queue, and
returns (proceed = false) without touching the running-process handle map or
the concurrency semaphore. -/
theorem blocked_command_rejected (reSearch : String → String → Bool)
    (command : String) (st : JobExecState)
    (h : ∃ pd ∈ DANGEROUS_COMMAND_PATTERNS, reSearch pd.1 command = true) :
    (run_command_safety_gate reSearch command st).2 = false ∧
    (run_command_safety_gate reSearch command st).1.status = JobStatus.failed ∧
    (run_command_safety_gate reSearch command st).1.runningProcs = st.runningProcs ∧
    (run_command_safety_gate reSearch command st).1.semAvailable = st.semAvailable ∧
    (run_command_safety_gate reSearch command st).1.logQueues =
      st.logQueues.map (fun q =>
        q ++ [some (blockedMessage (validate_command_safety reSearch command).2 command),
              none]) := by
  obtain ⟨pd, hmem, hp⟩ := h
  cases hf : DANGEROUS_COMMAND_PATTERNS.find? (fun pd => reSearch pd.1 command) with
  | none =>
    rw [List.find?_eq_none] at hf
    exact absurd hp (by simpa using hf pd hmem)
  | some pd' =>
    simp [run_command_safety_gate, validate_command_safety, hf]

/-- Witness for C1 at a concrete blocked command and state. -/
theorem blocked_command_rejected_witness :
    (∃ pd ∈ DANGEROUS_COMMAND_PATTERNS,
       (fun _ _ => true : String → String → Bool) pd.1 "sudo rm -rf /" = true) ∧
    (run_command_safety_gate (fun _ _ => true) "sudo rm -rf /"
       ⟨.pending, false, "", [[]], [(3, 99)], 2⟩).2 = false ∧
    (run_command_safety_gate (fun _ _ => true) "sudo rm -rf /"
       ⟨.pending, false, "", [[]], [(3, 99)], 2⟩).1.status = JobStatus.failed ∧
    (run_command_safety_gate (fun _ _ => true) "sudo rm -rf /"
       ⟨.pending, false, "", [[]], [(3, 99)], 2⟩).1.runningProcs = [(3, 99)] := by
  have hex : ∃ pd ∈ DANGEROUS_COMMAND_PATTERNS,
      (fun _ _ => true : String → String → Bool) pd.1 "sudo rm -rf /" = true :=
    ⟨("\\brm\\s+.*-[rR].*\\s+(/|~|\\$HOME)", "Recursive deletion of root or home directory"),
     List.mem_cons_self _ _, rfl⟩
  have h := blocked_command_rejected (fun _ _ => true) "sudo rm -rf /"
    ⟨.pending, false, "", [[]], [(3, 99)], 2⟩ hex
  exact ⟨hex, h.1, h.2.1, h.2.2.1⟩

/-! ## Claim C3: stop_job return value and handle removal -/

/-- Counterexample to claim C3 as stated: with a handle present for job 1
but an unexpected exception during the termination sequence, stop_job
returns False even though a handle existed at call time. -/
theorem stop_job_returns_false_with_handle :
    lookupKey 1 [(1, 42)] ≠ none ∧
    (stop_job [(1, 42)] 1 KillCheck.okSignal TermBehavior.unexpectedError).1 = false := by
  decide

/-- Claim C3 (amended): stop_job returns False exactly when no handle exists
or an unexpected exception occurs during the termination sequence; it
returns True whenever a handle existed and the sequence raised no unexpected
exception (regardless of whether termination was clean); and after the call
the running-process map never contains the job id. -/
theorem stop_job_amended (procs : List (Nat × Nat)) (jobId : Nat)
    (check : KillCheck) (term : TermBehavior) :
    ((stop_job procs jobId check term).1 = false ↔
      (lookupKey jobId procs = none ∨
       (lookupKey jobId procs ≠ none ∧ check ≠ .procGone ∧ term = .unexpectedError))) ∧
    lookupKey jobId (stop_job procs jobId check term).2 = none := by
  cases hl : lookupKey jobId procs with
  | none => cases check <;> cases term <;> simp [stop_job, hl]
  | some pid => cases check <;> cases term <;>
      simp [stop_job, hl, lookupKey_eraseKey]

/-! ## Claim C6: streaming logs of a finished job ends immediately -/

/-- Claim C6: a viewer connecting for a job already terminal at the initial
status read receives the replay followed immediately by an end-of-stream
message and the handler never enters the wait loop (and never even
subscribes); and when the job turns terminal between replay and subscribe,
the post-subscribe re-check emits end-of-stream, unsubscribes and skips the
wait loop. -/
theorem finished_job_stream_ends (jobId : Nat) (st1 : JobStatus)
    (replayLines : List String) (st2 : JobStatus) :
    (st1.isTerminal = true →
      stream_logs jobId true st1 replayLines st2 =
        ⟨replayLines.map WsMsg.log
           ++ [WsMsg.endMsg ("Job finished with status: " ++ st1.value)],
         false, false, false⟩) ∧
    (st1.isTerminal = false → st2.isTerminal = true →
      stream_logs jobId true st1 replayLines st2 =
        ⟨replayLines.map WsMsg.log
           ++ [WsMsg.endMsg ("Job finished with status: " ++ st2.value)],
         true, true, false⟩) := by
  constructor
  · intro h1
    simp [stream_logs, h1]
  · intro h1 h2
    simp [stream_logs, h1, h2]

/-- Witness for C6 at a completed job and at the replay/subscribe race. -/
theorem finished_job_stream_ends_witness :
    stream_logs 7 true JobStatus.completed ["line1\n"] JobStatus.pending =
      ⟨[WsMsg.log "line1\n", WsMsg.endMsg "Job finished with status: completed"],
       false, false, false⟩ ∧
    stream_logs 7 true JobStatus.running ["line1\n"] JobStatus.failed =
      ⟨[WsMsg.log "line1\n", WsMsg.endMsg "Job finished with status: failed"],
       true, true, false⟩ := by
  have h1 := (finished_job_stream_ends 7 JobStatus.completed ["line1\n"] JobStatus.pending).1 rfl
  have h2 := (finished_job_stream_ends 7 JobStatus.running ["line1\n"] JobStatus.failed).2 rfl rfl
  exact ⟨h1, h2⟩

/-! ## Claim C9: environment provisioning -/

/-- Claim C9: with a workspace configured, ensure_environment_exists succeeds
immediately (performing no side effect) when the environment directory and
its interpreter binary exist; deletes and recreates the environment when the
directory exists without the binary; creates it when the directory is
absent; hands docker projects to the image verifier; and returns False only
when the creation (or docker verification) mechanism itself fails. -/
theorem ensure_environment_spec (ws : String) (t : EnvironmentType) (w : EnvWorld) :
    (t ≠ .docker → w.envDirExists = true → w.pythonExists = true →
      ensure_environment_exists (some ws) t w = (true, [])) ∧
    (t ≠ .docker → w.envDirExists = true → w.pythonExists = false →
      ensure_environment_exists (some ws) t w =
        ((if t = .conda then w.condaCreateOk else w.venvCreateOk),
         [EnvAct.rmtree (get_environment_path ws t),
          if t = .conda then EnvAct.createConda else EnvAct.createVenv])) ∧
    (t ≠ .docker → w.envDirExists = false →
      ensure_environment_exists (some ws) t w =
        ((if t = .conda then w.condaCreateOk else w.venvCreateOk),
         [if t = .conda then EnvAct.createConda else EnvAct.createVenv])) ∧
    (t = .docker →
      ensure_environment_exists (some ws) t w = (w.dockerOk, [EnvAct.dockerVerify])) ∧
    ((ensure_environment_exists (some ws) t w).1 = false →
      (t = .docker ∧ w.dockerOk = false) ∨
      (t ≠ .docker ∧ (if t = .conda then w.condaCreateOk else w.venvCreateOk) = false ∧
       (w.envDirExists = false ∨ w.pythonExists = false))) := by
  rcases w with ⟨de, pe, dk, co, vo⟩
  cases t <;> cases de <;> cases pe <;> cases dk <;> cases co <;> cases vo <;>
    simp [ensure_environment_exists, get_environment_path]

/-- Witness for C9: a venv workspace whose directory exists with a missing
interpreter is deleted and recreated; and an intact environment succeeds
with no side effects. -/
theorem ensure_environment_spec_witness :
    ensure_environment_exists (some "/ws/p1") EnvironmentType.venv
        ⟨true, false, true, true, true⟩ =
      (true, [EnvAct.rmtree "/ws/p1/venv", EnvAct.createVenv]) ∧
    ensure_environment_exists (some "/ws/p1") EnvironmentType.venv
        ⟨true, true, true, true, true⟩ = (true, []) := by
  have h1 := (ensure_environment_spec "/ws/p1" EnvironmentType.venv
      ⟨true, false, true, true, true⟩).2.1 (by simp) rfl rfl
  have h2 := (ensure_environment_spec "/ws/p1" EnvironmentType.venv
      ⟨true, true, true, true, true⟩).1 (by simp) rfl rfl
  constructor
  · simpa [get_environment_path] using h1
  · exact h2

/-! ## Claim C10: terminal session ids strictly increase -/

/-- Every id returned by a run of session operations exceeds the starting
counter, the returned ids strictly increase, and the counter never
decreases. -/
theorem runTermOps_spec (ops : List TermOp) (m : TerminalMgr) :
    (∀ i ∈ (runTermOps m ops).2, m.counter < i) ∧
    List.Chain' (· < ·) (runTermOps m ops).2 ∧
    m.counter ≤ (runTermOps m ops).1.counter := by
  induction ops generalizing m with
  | nil => simp [runTermOps]
  | cons op ops ih =>
    cases op with
    | createSession ok =>
      cases ok with
      | false =>
        have h := ih ⟨m.counter + 1, m.sessions⟩
        simp only [runTermOps, applyTermOp, create_terminal_session, if_neg,
          Bool.false_eq_true, not_false_iff, Option.toList_none, List.nil_append]
        refine ⟨fun i hi => ?_, h.2.1, ?_⟩
        · exact Nat.lt_of_succ_lt (h.1 i hi)
        · exact Nat.le_of_succ_le h.2.2
      | true =>
        have h := ih ⟨m.counter + 1, (m.counter + 1) :: m.sessions⟩
        simp only [runTermOps, applyTermOp, create_terminal_session, if_pos,
          Option.toList_some, List.singleton_append]
        refine ⟨?_, ?_, ?_⟩
        · intro i hi
          rcases List.mem_cons.mp hi with h1 | h1
          · omega
          · exact Nat.lt_of_succ_lt (h.1 i h1)
        · refine List.chain'_cons'.mpr ⟨?_, h.2.1⟩
          intro y hy
          exact h.1 y (List.mem_of_mem_head? hy)
        · exact Nat.le_of_succ_le h.2.2
    | closeSession sid =>
      have h := ih ⟨m.counter, m.sessions.erase sid⟩
      simpa [runTermOps, applyTermOp, close_terminal_session] using h

/-- Claim C10: starting from a fresh manager, the ids returned by successful
create_terminal_session calls are strictly increasing positive integers
(never reused), and close_terminal_session never changes the counter. -/
theorem terminal_session_ids_increasing (ops : List TermOp) :
    List.Chain' (· < ·) (runTermOps ⟨0, []⟩ ops).2 ∧
    (∀ i ∈ (runTermOps ⟨0, []⟩ ops).2, 0 < i) ∧
    (∀ (m : TerminalMgr) (sid : Nat),
      (close_terminal_session sid m).counter = m.counter) := by
  have h := runTermOps_spec ops ⟨0, []⟩
  exact ⟨h.2.1, h.1, fun m sid => rfl⟩

/-- Witness for C10: create, close the session, create again — the second id
is still strictly greater than the first. -/
theorem terminal_session_ids_increasing_witness :
    (runTermOps ⟨0, []⟩
       [TermOp.createSession true, TermOp.closeSession 1,
        TermOp.createSession true]).2 = [1, 2] ∧
    List.Chain' (· < ·)
      (runTermOps ⟨0, []⟩
        [TermOp.createSession true, TermOp.closeSession 1,
         TermOp.createSession true]).2 ∧
    0 < 1 := by
  have h := terminal_session_ids_increasing
    [TermOp.createSession true, TermOp.closeSession 1, TermOp.createSession true]
  refine ⟨by decide, h.1, ?_⟩
  exact h.2.1 1 (by decide)

/-! ## Claim C8: manual trigger uses the cron dispatch path and preserves next_run -/

/-- Claim C8: the run-task-now endpoint dispatches through
execute_scheduled_task — the same function a cron fire invokes — creating a
new PENDING Job for the task's command and handing its id to the executor;
and under the database/trigger synchronisation invariant the task's stored
next_run after the call equals its value before the call. -/
theorem trigger_now_spec (s : SchedState) (taskId : Nat) :
    (run_scheduled_task_now s taskId = execute_scheduled_task s taskId) ∧
    (∀ t, lookupKey taskId s.tasks = some t → t.enabled = true →
      t.projectId ∈ s.projects →
      (run_scheduled_task_now s taskId).jobs =
        s.jobs ++ [⟨s.nextJobId, t.projectId, JobStatus.pending, t.command⟩] ∧
      (run_scheduled_task_now s taskId).dispatched = s.dispatched ++ [s.nextJobId]) ∧
    (SchedSyncInv s →
      nextRunOf (run_scheduled_task_now s taskId) taskId = nextRunOf s taskId) := by
  refine ⟨?_, ?_, ?_⟩
  · cases hl : lookupKey taskId s.tasks with
    | none => simp [run_scheduled_task_now, execute_scheduled_task, hl]
    | some t => simp [run_scheduled_task_now, hl]
  · intro t hl he hpj
    constructor <;> simp [run_scheduled_task_now, execute_scheduled_task, hl, he, hpj]
  · intro hinv
    cases hl : lookupKey taskId s.tasks with
    | none => simp [run_scheduled_task_now, hl]
    | some t =>
      cases he : t.enabled with
      | false => simp [run_scheduled_task_now, execute_scheduled_task, hl, he]
      | true =>
        by_cases hpj : t.projectId ∈ s.projects
        · cases htr : lookupKey taskId s.trigger with
          | none =>
            simp [run_scheduled_task_now, execute_scheduled_task, hl, he, hpj,
              htr, nextRunOf,
              lookupKey_updateKey_self taskId _ s.tasks (by simp [hl])]
          | some nt =>
            have hnr : t.nextRun = some nt := hinv taskId t nt hl he hpj htr
            simp [run_scheduled_task_now, execute_scheduled_task, hl, he, hpj,
              htr, nextRunOf, hnr,
              lookupKey_updateKey_self taskId _ s.tasks (by simp [hl])]
        · simp [run_scheduled_task_now, execute_scheduled_task, hl, he, hpj]

/-- Witness for C8 at a concrete enabled task in sync with its trigger entry:
the manual trigger creates a job and leaves next_run untouched. -/
theorem trigger_now_spec_witness :
    nextRunOf (run_scheduled_task_now
        ⟨[(1, ⟨true, 5, "make train", none, some 60, none⟩)], [5], [(1, 60)],
         [], [], 10, 42⟩ 1) 1 =
      nextRunOf
        ⟨[(1, ⟨true, 5, "make train", none, some 60, none⟩)], [5], [(1, 60)],
         [], [], 10, 42⟩ 1 ∧
    (run_scheduled_task_now
        ⟨[(1, ⟨true, 5, "make train", none, some 60, none⟩)], [5], [(1, 60)],
         [], [], 10, 42⟩ 1).jobs = [⟨10, 5, JobStatus.pending, "make train"⟩] := by
  have hinv : SchedSyncInv
      ⟨[(1, ⟨true, 5, "make train", none, some 60, none⟩)], [5], [(1, 60)],
       [], [], 10, 42⟩ := by
    intro tid t nt hl he hp htr
    by_cases h1 : (1 : Nat) = tid
    · subst h1
      simp [lookupKey] at hl htr
      rw [← hl, htr]
    · simp [lookupKey, h1] at hl
  have h := trigger_now_spec
    ⟨[(1, ⟨true, 5, "make train", none, some 60, none⟩)], [5], [(1, 60)],
     [], [], 10, 42⟩ 1
  refine ⟨h.2.2 hinv, ?_⟩
  have hj := (h.2.1 ⟨true, 5, "make train", none, some 60, none⟩ rfl rfl (by decide)).1
  simpa using hj

/-! ## Claim C7: PTYSession.close is idempotent -/

/-- Claim C7: a first close releases each still-open descriptor exactly once,
signals the child, cancels the reader task, and clears every handle; a
second close is a no-op performing no OS action; and afterwards every write
returns False and every read returns None without touching any descriptor. -/
theorem pty_close_idempotent (s : PTYState) :
    PTYSession.close (PTYSession.close s).1 = ((PTYSession.close s).1, []) ∧
    (PTYSession.close s).1.closed = true ∧
    (PTYSession.close s).1.masterFd = none ∧
    (PTYSession.close s).1.slaveFd = none ∧
    (PTYSession.close s).1.pid = none ∧
    (∀ m, s.masterFd = some m → s.slaveFd ≠ some m →
      (PTYSession.close s).2.count (PtyAct.closeFd m) = 1) ∧
    (∀ fd, s.slaveFd = some fd → s.masterFd ≠ some fd →
      (PTYSession.close s).2.count (PtyAct.closeFd fd) = 1) ∧
    (∀ p, s.pid = some p → PtyAct.sigterm p ∈ (PTYSession.close s).2) ∧
    (s.hasReaderTask = true → PtyAct.cancelReader ∈ (PTYSession.close s).2) ∧
    (∀ ok now, PTYSession.write ok now (PTYSession.close s).1 =
      (false, (PTYSession.close s).1, [])) ∧
    (∀ res, PTYSession.read res (PTYSession.close s).1 =
      (none, (PTYSession.close s).1, [])) := by
  rcases s with ⟨sid, mfd, sfd, pid, cl, rt, la⟩
  cases mfd <;> cases sfd <;> cases pid <;> cases rt <;>
    simp [PTYSession.close, PTYSession.write, PTYSession.read,
      List.count_append, List.count_cons, List.count_nil, List.count_singleton]

/-- Witness for C7 at a started session (master fd 3, child pid 99, reader
task running): the master descriptor is closed exactly once, the child is
signalled, and a second close does nothing. -/
theorem pty_close_idempotent_witness :
    (PTYSession.close ⟨1, some 3, none, some 99, false, true, 0⟩).2.count
       (PtyAct.closeFd 3) = 1 ∧
    PtyAct.sigterm 99 ∈ (PTYSession.close ⟨1, some 3, none, some 99, false, true, 0⟩).2 ∧
    PTYSession.close (PTYSession.close ⟨1, some 3, none, some 99, false, true, 0⟩).1 =
      ((PTYSession.close ⟨1, some 3, none, some 99, false, true, 0⟩).1, []) ∧
    (∀ ok now, PTYSession.write ok now
        (PTYSession.close ⟨1, some 3, none, some 99, false, true, 0⟩).1 =
      (false, (PTYSession.close ⟨1, some 3, none, some 99, false, true, 0⟩).1, [])) := by
  obtain ⟨h1, h2, h3, h4, h5, h6, h7, h8, h9, h10, h11⟩ :=
    pty_close_idempotent ⟨1, some 3, none, some 99, false, true, 0⟩
  exact ⟨h6 3 rfl (by simp), h8 99 rfl, h1, h10⟩

/-! ## Claims C2 and C4: concurrency limit and status monotonicity -/

/-- Invariant of executions whose jobs were all submitted through
run_command: free slots plus slot-holding coroutines equal the configured
limit, and every RUNNING job is driven by a slot-holding coroutine. -/
def ExecInv (N : Nat) (s : MState) : Prop :=
  s.maxJobs = N ∧
  (∀ t ∈ s.tasks, ∃ b e c, t.kind = TaskKind.runCmd b e c) ∧
  s.sem + holders s = N ∧
  (∀ t ∈ s.tasks, t.status = JobStatus.running → isHolderPhase t.phase = true)

theorem allRunCmd_middle (l r : List ExecTask) (t t' : ExecTask)
    (h : t'.kind = t.kind)
    (h2 : ∀ x ∈ l ++ t :: r, ∃ b e c, x.kind = TaskKind.runCmd b e c) :
    ∀ x ∈ l ++ t' :: r, ∃ b e c, x.kind = TaskKind.runCmd b e c := by
  intro x hx
  rcases List.mem_append.mp hx with hx | hx
  · exact h2 x (List.mem_append_left _ hx)
  · rcases List.mem_cons.mp hx with rfl | hx
    · rw [h]
      exact h2 t (List.mem_append_right _ (List.mem_cons_self _ _))
    · exact h2 x (List.mem_append_right _ (List.mem_cons_of_mem _ hx))

theorem statusHolder_middle (l r : List ExecTask) (t t' : ExecTask)
    (ht' : t'.status = JobStatus.running → isHolderPhase t'.phase = true)
    (h4 : ∀ x ∈ l ++ t :: r, x.status = JobStatus.running → isHolderPhase x.phase = true) :
    ∀ x ∈ l ++ t' :: r, x.status = JobStatus.running → isHolderPhase x.phase = true := by
  intro x hx
  rcases List.mem_append.mp hx with hx | hx
  · exact h4 x (List.mem_append_left _ hx)
  · rcases List.mem_cons.mp hx with rfl | hx
    · exact ht'
    · exact h4 x (List.mem_append_right _ (List.mem_cons_of_mem _ hx))

/-- Each interleaving step preserves the run_command invariant. -/
theorem exec_inv_step (N : Nat) {s s' : MState}
    (hstep : Step s s') (hinv : ExecInv N s) : ExecInv N s' := by
  obtain ⟨h1, h2, h3, h4⟩ := hinv
  cases hstep with
  | validateBlocked mj sem procs l r t e c hk hp =>
    refine ⟨h1, allRunCmd_middle l r t _ (by simp) h2, ?_,
      statusHolder_middle l r t _ (by intro hc; simp at hc) h4⟩
    simp only [holders, List.countP_append, List.countP_cons, hp] at h3 ⊢
    simpa [isHolderPhase] using h3
  | validateEnvFail mj sem procs l r t c hk hp =>
    refine ⟨h1, allRunCmd_middle l r t _ (by simp) h2, ?_,
      statusHolder_middle l r t _ (by intro hc; simp at hc) h4⟩
    simp only [holders, List.countP_append, List.countP_cons, hp] at h3 ⊢
    simpa [isHolderPhase] using h3
  | validateOk mj sem procs l r t c hk hp =>
    refine ⟨h1, allRunCmd_middle l r t _ (by simp) h2, ?_, ?_⟩
    · simp only [holders, List.countP_append, List.countP_cons, hp] at h3 ⊢
      simpa [isHolderPhase] using h3
    · refine statusHolder_middle l r t _ (fun hs => ?_) h4
      have hh := h4 t (List.mem_append_right _ (List.mem_cons_self _ _)) (by simpa using hs)
      rw [hp] at hh
      simp [isHolderPhase] at hh
  | acquire mj n procs l r t c hk hp =>
    refine ⟨h1, allRunCmd_middle l r t _ (by simp) h2, ?_,
      statusHolder_middle l r t _ (by intro hc; simp [isHolderPhase]) h4⟩
    simp only [holders, List.countP_append, List.countP_cons, hp] at h3 ⊢
    simp [isHolderPhase] at h3 ⊢
    omega
  | spawn mj sem procs l r t c hk hp =>
    refine ⟨h1, allRunCmd_middle l r t _ (by simp) h2, ?_,
      statusHolder_middle l r t _ (by intro hc; simp [isHolderPhase]) h4⟩
    simp only [holders, List.countP_append, List.countP_cons, hp] at h3 ⊢
    simpa [isHolderPhase] using h3
  | finishRun mj sem procs l r t c hk hp =>
    refine ⟨h1, allRunCmd_middle l r t _ (by simp) h2, ?_, ?_⟩
    · simp only [holders, List.countP_append, List.countP_cons, hp] at h3 ⊢
      simp [isHolderPhase] at h3 ⊢
      omega
    · refine statusHolder_middle l r t _ (fun hs => ?_) h4
      exfalso
      revert hs
      by_cases hc : t.killed = false ∧ c = 0 <;> simp [hc]
  | gitStart mj sem procs l r t c hk hp =>
    exfalso
    obtain ⟨b, e, c', hk'⟩ := h2 t (List.mem_append_right _ (List.mem_cons_self _ _))
    rw [hk] at hk'
    exact TaskKind.noConfusion hk'
  | gitFinish mj sem procs l r t c hk hp =>
    exfalso
    obtain ⟨b, e, c', hk'⟩ := h2 t (List.mem_append_right _ (List.mem_cons_self _ _))
    rw [hk] at hk'
    exact TaskKind.noConfusion hk'
  | stopJob mj sem procs l r t hs hin =>
    refine ⟨h1, allRunCmd_middle l r t _ (by simp) h2, ?_,
      statusHolder_middle l r t _ (by intro hc; simp at hc) h4⟩
    simp only [holders, List.countP_append, List.countP_cons] at h3 ⊢
    simpa using h3

/-- Claim C2 (amended): for executions whose jobs are all driven by
run_command, at most max_concurrent_jobs jobs ever hold RUNNING status, and
while the limit is reached no step lets another coroutine move into the
slot-holding (spawned) phases — a queued submission cannot spawn until a
running job finishes and frees its slot. -/
theorem run_command_concurrency (N : Nat) (ts : List ExecTask) (s s' : MState)
    (hts : ∀ t ∈ ts, (∃ b e c, t.kind = TaskKind.runCmd b e c) ∧
            t.phase = TaskPhase.validating ∧ t.status = JobStatus.pending)
    (hreach : ReachableExec ⟨N, N, [], ts⟩ s) :
    runningCount s ≤ N ∧
    (runningCount s = N → Step s s' → holders s' ≤ holders s) := by
  have hinv0 : ExecInv N ⟨N, N, [], ts⟩ := by
    refine ⟨rfl, fun t ht => (hts t ht).1, ?_, fun t ht hs => ?_⟩
    · have hz : holders ⟨N, N, [], ts⟩ = 0 := by
        simp only [holders]
        refine List.countP_eq_zero.mpr fun t ht => ?_
        rw [(hts t ht).2.1]
        simp [isHolderPhase]
      simp [hz]
    · exfalso
      rw [(hts t ht).2.2] at hs
      exact JobStatus.noConfusion hs
  have hinv : ExecInv N s := by
    induction hreach with
    | refl => exact hinv0
    | tail h1 h2 ih => exact exec_inv_step N h2 ih
  obtain ⟨hmj, hall, hsem, hstat⟩ := hinv
  have hrh : runningCount s ≤ holders s := by
    refine List.countP_mono_left fun t ht hp => ?_
    exact hstat t ht (by simpa using hp)
  constructor
  · omega
  · intro hrun hstep
    have hsem0 : s.sem = 0 := by omega
    cases hstep with
    | validateBlocked mj sem procs l r t e c hk hp =>
      simp only [holders, List.countP_append, List.countP_cons, hp]
      simp [isHolderPhase]
    | validateEnvFail mj sem procs l r t c hk hp =>
      simp only [holders, List.countP_append, List.countP_cons, hp]
      simp [isHolderPhase]
    | validateOk mj sem procs l r t c hk hp =>
      simp only [holders, List.countP_append, List.countP_cons, hp]
      simp [isHolderPhase]
    | acquire mj n procs l r t c hk hp =>
      exfalso
      simp at hsem0
    | spawn mj sem procs l r t c hk hp =>
      simp only [holders, List.countP_append, List.countP_cons, hp]
      simp [isHolderPhase]
    | finishRun mj sem procs l r t c hk hp =>
      simp only [holders, List.countP_append, List.countP_cons, hp]
      simp [isHolderPhase]
    | gitStart mj sem procs l r t c hk hp =>
      exfalso
      obtain ⟨b, e, c', hk'⟩ := hall t (List.mem_append_right _ (List.mem_cons_self _ _))
      rw [hk] at hk'
      exact TaskKind.noConfusion hk'
    | gitFinish mj sem procs l r t c hk hp =>
      exfalso
      obtain ⟨b, e, c', hk'⟩ := hall t (List.mem_append_right _ (List.mem_cons_self _ _))
      rw [hk] at hk'
      exact TaskKind.noConfusion hk'
    | stopJob mj sem procs l r t hs hin =>
      simp only [holders, List.countP_append, List.countP_cons]
      simp

/-- Witness for C2 (amended) at a concrete reachable state: one run_command
job with limit 1, after acquiring its slot, keeps the running count at the
limit. -/
theorem run_command_concurrency_witness :
    runningCount
      ⟨1, 0, [],
       [⟨1, TaskKind.runCmd false true 0, TaskPhase.spawning, JobStatus.running, false⟩]⟩ ≤ 1 := by
  have hreach : ReachableExec
      ⟨1, 1, [],
       [⟨1, TaskKind.runCmd false true 0, TaskPhase.validating, JobStatus.pending, false⟩]⟩
      ⟨1, 0, [],
       [⟨1, TaskKind.runCmd false true 0, TaskPhase.spawning, JobStatus.running, false⟩]⟩ := by
    refine Relation.ReflTransGen.head
      (Step.validateOk 1 1 [] [] []
        ⟨1, TaskKind.runCmd false true 0, TaskPhase.validating, JobStatus.pending, false⟩ 0 rfl rfl)
      (Relation.ReflTransGen.head
        (Step.acquire 1 0 [] [] []
          ⟨1, TaskKind.runCmd false true 0, TaskPhase.waitingSlot, JobStatus.pending, false⟩ 0 rfl rfl)
        Relation.ReflTransGen.refl)
  exact (run_command_concurrency 1 _ _
    ⟨1, 0, [],
     [⟨1, TaskKind.runCmd false true 0, TaskPhase.spawning, JobStatus.running, false⟩]⟩
    (by intro t ht; simp at ht; subst ht; exact ⟨⟨false, true, 0, rfl⟩, rfl, rfl⟩)
    hreach).1

/-- Counterexample to claim C2 as stated: with max_concurrent_jobs = 1, a
run_command job occupying the only slot and a concurrent git_pull job reach
a state with two jobs RUNNING — git_pull commits RUNNING and spawns without
acquiring a semaphore slot (manager.py lines 1536-1564). -/
theorem concurrency_limit_counterexample :
    ∃ bad : MState,
      ReachableExec
        ⟨1, 1, [],
         [⟨1, TaskKind.runCmd false true 0, TaskPhase.validating, JobStatus.pending, false⟩,
          ⟨2, TaskKind.gitPull 0, TaskPhase.validating, JobStatus.pending, false⟩]⟩ bad ∧
      bad.maxJobs = 1 ∧ runningCount bad = 2 := by
  refine ⟨⟨1, 0, [2],
    [⟨1, TaskKind.runCmd false true 0, TaskPhase.spawning, JobStatus.running, false⟩,
     ⟨2, TaskKind.gitPull 0, TaskPhase.streaming, JobStatus.running, false⟩]⟩, ?_, rfl, by decide⟩
  refine Relation.ReflTransGen.head
    (Step.validateOk 1 1 [] []
      [⟨2, TaskKind.gitPull 0, TaskPhase.validating, JobStatus.pending, false⟩]
      ⟨1, TaskKind.runCmd false true 0, TaskPhase.validating, JobStatus.pending, false⟩ 0 rfl rfl)
    (Relation.ReflTransGen.head
      (Step.acquire 1 0 [] []
        [⟨2, TaskKind.gitPull 0, TaskPhase.validating, JobStatus.pending, false⟩]
        ⟨1, TaskKind.runCmd false true 0, TaskPhase.waitingSlot, JobStatus.pending, false⟩ 0 rfl rfl)
      (Relation.ReflTransGen.head
        (Step.gitStart 1 0 []
          [⟨1, TaskKind.runCmd false true 0, TaskPhase.spawning, JobStatus.running, false⟩] []
          ⟨2, TaskKind.gitPull 0, TaskPhase.validating, JobStatus.pending, false⟩ 0 rfl rfl)
        Relation.ReflTransGen.refl))

/-- Claim C4 witness of the code defect: with limit 1, a job is RUNNING with
its handle registered; the stop endpoint kills it and commits STOPPED (a
terminal status); the still-pending run_command completion step then
overwrites the status with FAILED — a terminal status changes again. -/
theorem stopped_overwritten_by_failed :
    ∃ s4 s5 : MState,
      ReachableExec
        ⟨1, 1, [],
         [⟨1, TaskKind.runCmd false true 0, TaskPhase.validating, JobStatus.pending, false⟩]⟩ s4 ∧
      Step s4 s5 ∧
      jobStatusIn s4 1 = some JobStatus.stopped ∧
      JobStatus.isTerminal JobStatus.stopped = true ∧
      jobStatusIn s5 1 = some JobStatus.failed := by
  refine ⟨⟨1, 0, [],
      [⟨1, TaskKind.runCmd false true 0, TaskPhase.streaming, JobStatus.stopped, true⟩]⟩,
    ⟨1, 1, [],
      [⟨1, TaskKind.runCmd false true 0, TaskPhase.donePhase, JobStatus.failed, true⟩]⟩,
    ?_, ?_, by decide, rfl, by decide⟩
  · refine Relation.ReflTransGen.head
      (Step.validateOk 1 1 [] [] []
        ⟨1, TaskKind.runCmd false true 0, TaskPhase.validating, JobStatus.pending, false⟩ 0 rfl rfl)
      (Relation.ReflTransGen.head
        (Step.acquire 1 0 [] [] []
          ⟨1, TaskKind.runCmd false true 0, TaskPhase.waitingSlot, JobStatus.pending, false⟩ 0 rfl rfl)
        (Relation.ReflTransGen.head
          (Step.spawn 1 0 [] [] []
            ⟨1, TaskKind.runCmd false true 0, TaskPhase.spawning, JobStatus.running, false⟩ 0 rfl rfl)
          (Relation.ReflTransGen.head
            (Step.stopJob 1 0 [1] [] []
              ⟨1, TaskKind.runCmd false true 0, TaskPhase.streaming, JobStatus.running, false⟩
              rfl (by decide))
            Relation.ReflTransGen.refl)))
  · exact Step.finishRun 1 0 [] [] []
      ⟨1, TaskKind.runCmd false true 0, TaskPhase.streaming, JobStatus.stopped, true⟩ 0 rfl rfl

/-! ## Claim C5: replay with tail truncation -/

theorem splitNL_ne_nil (s : List Char) : splitNL s ≠ [] := by
  cases s with
  | nil => simp [splitNL]
  | cons c cs =>
    simp only [splitNL]
    by_cases hc : c = '\n'
    · simp [hc]
    · simp only [if_neg hc]
      cases h : splitNL cs <;> simp

theorem two_le_splitNL_length {s : List Char} (h : '\n' ∈ s) :
    2 ≤ (splitNL s).length := by
  induction s with
  | nil => simp at h
  | cons c cs ih =>
    by_cases hc : c = '\n'
    · simp only [splitNL, if_pos hc, List.length_cons]
      have h1 : 0 < (splitNL cs).length := List.length_pos.mpr (splitNL_ne_nil cs)
      omega
    · have hmem : '\n' ∈ cs := by
        rcases List.mem_cons.mp h with h1 | h1
        · exact absurd h1.symm hc
        · exact h1
      have h2 := ih hmem
      simp only [splitNL, if_neg hc]
      cases hsp : splitNL cs with
      | nil => exact absurd hsp (splitNL_ne_nil cs)
      | cons p ps =>
        rw [hsp] at h2
        simpa using h2

theorem getLast?_cons_of_ne_nil {α : Type} (a : α) {l : List α} (h : l ≠ []) :
    (a :: l).getLast? = l.getLast? := by
  cases l with
  | nil => exact absurd rfl h
  | cons b t => exact List.getLast?_cons_cons

theorem getLast?_append_right {α : Type} (l₁ : List α) {l₂ : List α} (h : l₂ ≠ []) :
    (l₁ ++ l₂).getLast? = l₂.getLast? := by
  induction l₁ with
  | nil => simp
  | cons a t ih =>
    have hne : t ++ l₂ ≠ [] := by
      intro h0
      exact h (List.append_eq_nil.mp h0).2
    rw [List.cons_append, getLast?_cons_of_ne_nil a hne, ih]

theorem getLast?_drop_of_lt {α : Type} {l : List α} {n : Nat} (h : n < l.length) :
    (l.drop n).getLast? = l.getLast? := by
  have hne : l.drop n ≠ [] := by
    intro h0
    have := congrArg List.length h0
    simp [List.length_drop] at this
    omega
  conv_rhs => rw [← List.take_append_drop n l]
  rw [getLast?_append_right _ hne]

theorem splitNL_getLast?_append (a b : List Char) (h : '\n' ∈ b) :
    (splitNL (a ++ b)).getLast? = (splitNL b).getLast? := by
  induction a with
  | nil => simp
  | cons c a' ih =>
    by_cases hc : c = '\n'
    · rw [List.cons_append]
      simp only [splitNL, if_pos hc]
      rw [getLast?_cons_of_ne_nil _ (splitNL_ne_nil _)]
      exact ih
    · rw [List.cons_append]
      simp only [splitNL, if_neg hc]
      cases hsp : splitNL (a' ++ b) with
      | nil => exact absurd hsp (splitNL_ne_nil _)
      | cons p ps =>
        have h2 : 2 ≤ (splitNL (a' ++ b)).length :=
          two_le_splitNL_length (List.mem_append_right a' h)
        rw [hsp] at h2
        cases ps with
        | nil => simp at h2
        | cons q ps' =>
          have e1 : ((c :: p) :: q :: ps').getLast? = (q :: ps').getLast? :=
            getLast?_cons_of_ne_nil _ (by simp)
          have e2 : (p :: q :: ps').getLast? = (q :: ps').getLast? :=
            getLast?_cons_of_ne_nil _ (by simp)
          rw [e1, ← e2, ← hsp]
          exact ih

theorem splitNL_dropThrough {s : List Char} (h : '\n' ∈ s) :
    splitNL (dropThroughFirstNL s) = (splitNL s).drop 1 := by
  induction s with
  | nil => simp at h
  | cons c cs ih =>
    by_cases hc : c = '\n'
    · simp [dropThroughFirstNL, splitNL, hc]
    · have hmem : '\n' ∈ cs := by
        rcases List.mem_cons.mp h with h1 | h1
        · exact absurd h1.symm hc
        · exact h1
      simp only [dropThroughFirstNL, if_neg hc, splitNL]
      rw [ih hmem]
      cases hsp : splitNL cs with
      | nil => exact absurd hsp (splitNL_ne_nil cs)
      | cons p ps => simp

theorem getLast?_filter_keep {α : Type} (p : α → Bool) :
    ∀ (l : List α) (x : α), l.getLast? = some x → p x = true →
      (l.filter p).getLast? = some x := by
  intro l
  induction l with
  | nil => intro x h hp; simp at h
  | cons a t ih =>
    intro x h hp
    cases t with
    | nil =>
      simp at h
      subst h
      simp [List.filter_cons, hp]
    | cons b t' =>
      rw [getLast?_cons_of_ne_nil a (by simp)] at h
      have hrec := ih x h hp
      have hne : (b :: t').filter p ≠ [] := by
        intro hnil
        rw [hnil] at hrec
        simp at hrec
      cases hpa : p a with
      | false => simpa [List.filter_cons, hpa] using hrec
      | true =>
        rw [List.filter_cons_of_pos hpa, getLast?_cons_of_ne_nil a hne]
        exact hrec

theorem getLast?_map_comm {α β : Type} (f : α → β) (l : List α) :
    (l.map f).getLast? = l.getLast?.map f := by
  induction l with
  | nil => simp
  | cons a t ih =>
    cases t with
    | nil => simp
    | cons b t' =>
      rw [List.map_cons, getLast?_cons_of_ne_nil _ (by simp),
        getLast?_cons_of_ne_nil a (by simp)]
      exact ih

theorem pyTailSlice_getLast? {α : Type} (k : Nat) (hk : k ≠ 0) {l : List α}
    (hl : l ≠ []) : (pyTailSlice k l).getLast? = l.getLast? := by
  unfold pyTailSlice
  rw [if_neg hk]
  have hlen : 0 < l.length := List.length_pos.mpr hl
  exact getLast?_drop_of_lt (by omega)

theorem pyTailSlice_length_le {α : Type} (k : Nat) (hk : k ≠ 0) (l : List α)
    (hlk : k ≤ l.length) : (pyTailSlice k l).length ≤ k := by
  unfold pyTailSlice
  rw [if_neg hk]
  simp [List.length_drop]
  omega


theorem getLast?_ne_none_of_ne_nil {α : Type} {l : List α} (h : l ≠ []) :
    l.getLast? ≠ none := by
  cases l with
  | nil => exact absurd rfl h
  | cons a t =>
    induction t generalizing a with
    | nil => simp
    | cons b t' ih =>
      rw [List.getLast?_cons_cons]
      exact ih b (by simp)

/-- Unfolding of get_existing_logs in the large-file branch. -/
theorem get_existing_logs_large (content : List Char) (mb ml : Nat)
    (h : mb < content.length) :
    get_existing_logs content mb ml =
      truncationNotice mb content.length :: separatorLine ::
        ((if ml < (splitNL (pySliceAfterFirstNL (content.drop (content.length - mb)))).length
          then [omittedNotice
            ((splitNL (pySliceAfterFirstNL (content.drop (content.length - mb)))).length - ml)]
          else []) ++
         (((if ml < (splitNL (pySliceAfterFirstNL (content.drop (content.length - mb)))).length
            then pyTailSlice ml (splitNL (pySliceAfterFirstNL (content.drop (content.length - mb))))
            else splitNL (pySliceAfterFirstNL (content.drop (content.length - mb)))).filter
              (fun l => l ≠ [])).map (fun l => l ++ ['\n']))) := by
  simp only [get_existing_logs]
  rw [if_neg (by omega)]

/-- Claim C5 (amended): replay yields small files in full, line by line and
unchanged. For a file over the byte cap, provided the final maxBytes window
contains a newline (no single line longer than the window), the file's true
last line is nonempty and maxLines is positive, the output is the truncation
notice and separator, at most one omitted-lines indication, and at most
maxLines tail lines whose last element is the file's true last line. -/
theorem replay_truncation_amended (content : List Char) (maxBytes maxLines : Nat) :
    (content.length ≤ maxBytes →
      get_existing_logs content maxBytes maxLines = fileLines content) ∧
    (maxBytes < content.length →
      '\n' ∈ content.drop (content.length - maxBytes) →
      lastSegment content ≠ [] →
      0 < maxLines →
      ∃ pre body,
        get_existing_logs content maxBytes maxLines =
          truncationNotice maxBytes content.length :: separatorLine :: (pre ++ body) ∧
        pre.length ≤ 1 ∧
        (∀ x ∈ pre, ∃ k, x = omittedNotice k) ∧
        body.length ≤ maxLines ∧
        (get_existing_logs content maxBytes maxLines).getLast? =
          some (lastSegment content ++ ['\n'])) := by
  constructor
  · intro h
    simp [get_existing_logs, h]
  · intro hlt hnl hseg hml
    rw [get_existing_logs_large content maxBytes maxLines hlt]
    set tb := content.drop (content.length - maxBytes) with htb
    set L := splitNL (pySliceAfterFirstNL tb) with hL
    have hLeq : L = (splitNL tb).drop 1 := by
      rw [hL]
      unfold pySliceAfterFirstNL
      rw [if_pos hnl, splitNL_dropThrough hnl]
    have h2le : 2 ≤ (splitNL tb).length := two_le_splitNL_length hnl
    have hLlen : L.length = (splitNL tb).length - 1 := by
      rw [hLeq]
      simp [List.length_drop]
    have hLne : L ≠ [] := by
      intro h0
      rw [h0] at hLlen
      simp at hLlen
      omega
    have hLlast : L.getLast? = (splitNL content).getLast? := by
      rw [hLeq, getLast?_drop_of_lt (by omega)]
      have hconteq : content = content.take (content.length - maxBytes) ++ tb := by
        rw [htb, List.take_append_drop]
      conv_rhs => rw [hconteq]
      exact (splitNL_getLast?_append _ _ hnl).symm
    have hsegeq : (splitNL content).getLast? = some (lastSegment content) := by
      cases h : (splitNL content).getLast? with
      | none => exact absurd h (getLast?_ne_none_of_ne_nil (splitNL_ne_nil content))
      | some v =>
        unfold lastSegment
        rw [h]
        rfl
    have hLlastseg : L.getLast? = some (lastSegment content) := by
      rw [hLlast, hsegeq]
    by_cases hb : maxLines < L.length
    · refine ⟨[omittedNotice (L.length - maxLines)],
        ((pyTailSlice maxLines L).filter (fun l => l ≠ [])).map (fun l => l ++ ['\n']),
        by simp only [if_pos hb], by simp,
        (by intro x hx
            exact ⟨L.length - maxLines, by simpa using hx⟩), ?_, ?_⟩
      · rw [List.length_map]
        calc ((pyTailSlice maxLines L).filter (fun l => l ≠ [])).length
            ≤ (pyTailSlice maxLines L).length := List.length_filter_le _ _
          _ ≤ maxLines := pyTailSlice_length_le maxLines (by omega) L (Nat.le_of_lt hb)
      · have hlast2 : (pyTailSlice maxLines L).getLast? = some (lastSegment content) := by
          rw [pyTailSlice_getLast? maxLines (by omega) hLne, hLlastseg]
        have hfil : ((pyTailSlice maxLines L).filter (fun l => l ≠ [])).getLast? =
            some (lastSegment content) :=
          getLast?_filter_keep _ _ _ hlast2 (decide_eq_true hseg)
        have hbody : (((pyTailSlice maxLines L).filter (fun l => l ≠ [])).map
            (fun l => l ++ ['\n'])).getLast? = some (lastSegment content ++ ['\n']) := by
          rw [getLast?_map_comm, hfil]
          rfl
        have hbodyne : ((pyTailSlice maxLines L).filter (fun l => l ≠ [])).map
            (fun l => l ++ ['\n']) ≠ [] := by
          intro h0
          rw [h0] at hbody
          simp at hbody
        simp only [if_pos hb]
        rw [getLast?_cons_of_ne_nil _ (by simp),
          getLast?_cons_of_ne_nil _ (by simp),
          getLast?_append_right _ hbodyne]
        exact hbody
    · refine ⟨[], (L.filter (fun l => l ≠ [])).map (fun l => l ++ ['\n']),
        by simp only [if_neg hb], by simp, by simp, ?_, ?_⟩
      · rw [List.length_map]
        calc (L.filter (fun l => l ≠ [])).length
            ≤ L.length := List.length_filter_le _ _
          _ ≤ maxLines := Nat.not_lt.mp hb
      · have hfil : (L.filter (fun l => l ≠ [])).getLast? = some (lastSegment content) :=
          getLast?_filter_keep _ _ _ hLlastseg (decide_eq_true hseg)
        have hbody : ((L.filter (fun l => l ≠ [])).map
            (fun l => l ++ ['\n'])).getLast? = some (lastSegment content ++ ['\n']) := by
          rw [getLast?_map_comm, hfil]
          rfl
        have hbodyne : (L.filter (fun l => l ≠ [])).map (fun l => l ++ ['\n']) ≠ [] := by
          intro h0
          rw [h0] at hbody
          simp at hbody
        simp only [if_neg hb]
        rw [getLast?_cons_of_ne_nil _ (by simp),
          getLast?_cons_of_ne_nil _ (by simpa using hbodyne),
          getLast?_append_right _ hbodyne]
        exact hbody

/-- Witness for C5 (amended) on the file "ab\ncd" with a 4-byte window and a
1-line cap: the final yielded line is the true last line "cd". -/
theorem replay_truncation_amended_witness :
    4 < (['a', 'b', '\n', 'c', 'd'] : List Char).length ∧
    lastSegment ['a', 'b', '\n', 'c', 'd'] = ['c', 'd'] ∧
    (get_existing_logs ['a', 'b', '\n', 'c', 'd'] 4 1).getLast? =
      some ['c', 'd', '\n'] := by
  obtain ⟨pre, body, h1, h2, h3, h4, h5⟩ :=
    (replay_truncation_amended ['a', 'b', '\n', 'c', 'd'] 4 1).2
      (by decide) (by decide) (by decide) (by decide)
  refine ⟨by decide, by decide, ?_⟩
  rw [h5]
  decide

theorem splitNL_replicate (n : Nat) :
    splitNL (List.replicate n 'a') = [List.replicate n 'a'] := by
  induction n with
  | zero => simp [splitNL]
  | succ n ih =>
    rw [List.replicate_succ]
    simp only [splitNL]
    rw [if_neg (by decide : ¬ ('a' = '\n')), ih]

theorem getLast?_replicate_succ_a (n : Nat) :
    (List.replicate (n + 1) 'a').getLast? = some 'a' := by
  rw [List.replicate_succ']
  exact List.getLast?_concat _

theorem drop_one_replicate_a (n : Nat) :
    (List.replicate (n + 1) 'a').drop 1 = List.replicate n 'a' := by
  rw [List.replicate_succ, List.drop_succ_cons, List.drop_zero]

/-- Counterexample to claim C5 as stated: a 51201-byte log consisting of one
single line (no newline anywhere). The file exceeds the 50KB cap, yet the
final yielded line is the truncated 51200-byte tail fragment with an
appended newline — not the file's true last line (the whole 51201-byte
line), under either convention for the trailing terminator. -/
theorem replay_truncation_counterexample :
    51200 < (List.replicate 51201 'a').length ∧
    (get_existing_logs (List.replicate 51201 'a') 51200 1000).getLast? =
      some (List.replicate 51200 'a' ++ ['\n']) ∧
    (get_existing_logs (List.replicate 51201 'a') 51200 1000).getLast? ≠
      some (List.replicate 51201 'a') ∧
    (get_existing_logs (List.replicate 51201 'a') 51200 1000).getLast? ≠
      some (List.replicate 51201 'a' ++ ['\n']) := by
  have hlen : (List.replicate 51201 'a').length = 51201 := List.length_replicate _ _
  have hNL : '\n' ∉ List.replicate 51200 'a' := by
    intro hmem
    exact absurd (List.eq_of_mem_replicate hmem) (by decide)
  have hne : List.replicate 51200 'a' ≠ [] := by
    intro h0
    have h1 := congrArg List.length h0
    rw [List.length_replicate, List.length_nil] at h1
    exact absurd h1 (by norm_num)
  have hcond : ¬ (1000 < ([List.replicate 51200 'a'] : List (List Char)).length) := by
    rw [List.length_singleton]
    norm_num
  have hdrop : (List.replicate 51201 'a').drop 1 = List.replicate 51200 'a' :=
    drop_one_replicate_a 51200
  have hkey : get_existing_logs (List.replicate 51201 'a') 51200 1000 =
      truncationNotice 51200 51201 :: separatorLine ::
        [List.replicate 51200 'a' ++ ['\n']] := by
    rw [get_existing_logs_large _ _ _ (by rw [hlen]; omega)]
    rw [hlen]
    rw [(by norm_num : (51201 - 51200 : Nat) = 1), hdrop]
    rw [show pySliceAfterFirstNL (List.replicate 51200 'a') = List.replicate 51200 'a' from by
      unfold pySliceAfterFirstNL
      rw [if_neg hNL]]
    rw [splitNL_replicate]
    rw [if_neg hcond, if_neg hcond]
    have hfilter : List.filter (fun l => decide (l ≠ [])) [List.replicate 51200 'a'] =
        [List.replicate 51200 'a'] := by
      rw [List.filter_cons]
      rw [if_pos (show (fun l : List Char => decide (l ≠ []))
            (List.replicate 51200 'a') = true from decide_eq_true hne)]
      rw [List.filter_nil]
    rw [hfilter, List.map_cons, List.map_nil, List.nil_append]
  have hgl : (get_existing_logs (List.replicate 51201 'a') 51200 1000).getLast? =
      some (List.replicate 51200 'a' ++ ['\n']) := by
    rw [hkey, List.getLast?_cons_cons, List.getLast?_cons_cons]
    rfl
  refine ⟨by rw [hlen]; omega, hgl, ?_, ?_⟩
  · intro heq
    rw [hgl] at heq
    have hlists := Option.some.inj heq
    have h1 : (List.replicate 51200 'a' ++ ['\n']).getLast? = some '\n' :=
      List.getLast?_concat _
    have h2 : (List.replicate 51201 'a').getLast? = some 'a' :=
      getLast?_replicate_succ_a 51200
    rw [hlists, h2] at h1
    exact absurd (Option.some.inj h1) (by decide)
  · intro heq
    rw [hgl] at heq
    have hlists := Option.some.inj heq
    have hlen1 := congrArg List.length hlists
    rw [List.length_append, List.length_append, List.length_replicate,
      List.length_replicate] at hlen1
    omega
